import Mathlib

/-!
# Verification of the `datastructure` ring buffer (kubensage/common)

Shallow embedding of `src/datastructure/ringbuffer.go`: a generic, fixed
capacity circular FIFO buffer with overwrite-on-full `Add`, `Pop` of the
oldest element, `Readd` (push back at the logical front) and `Len`.

Modelling conventions:
* Go `int` values held in the struct (`capacity`, `start`, `size`) are
  non-negative in every state the program constructs, so they are embedded
  as `Nat`.  Go's `%` on non-negative operands with a positive divisor
  agrees with `Nat.mod`; every theorem below assumes `capacity > 0`
  (with capacity `0` the Go code panics with a division by zero on first
  use, and the claims under verification all assume a positive capacity).
* In `Readd` the Go source computes `(b.start - 1 + b.capacity) % b.capacity`
  in `int` arithmetic; since `0 ≤ start` and `1 ≤ capacity` this equals
  `(b.start + b.capacity - 1) % b.capacity`, which is the form used here so
  that `Nat` subtraction never truncates.
* `make([]T, cap)` yields `cap` zero-valued slots; the zero value of `T` is
  embedded as `default` of an `Inhabited` instance.  `make` panics when the
  requested length is negative, which is embedded by `NewRingBuffer`
  returning `none` (construction takes the raw `Int` argument).
* Go slice indexing `b.data[i]` is embedded with `List.getD`/`List.set`;
  in every use the well-formedness invariant puts the index in bounds, so
  the out-of-bounds defaults of the Lean functions are never exercised.
* The `sync.Mutex` field has no effect on the sequential values computed;
  the lock/unlock calls each method performs are embedded separately as an
  event trace (see `MutexEvent` below) so that claims about the locking
  discipline can be stated.
-/

/-- State of `RingBuffer[T]` from `ringbuffer.go`: underlying storage
`data`, fixed `capacity`, index `start` of the oldest element, and current
number `size` of elements.  The `sync.Mutex` field is not part of the
sequential state. -/
structure RingBuffer (α : Type) where
  data : List α
  capacity : Nat
  start : Nat
  size : Nat
deriving DecidableEq, Repr

/-- `NewRingBuffer(cap)` from the source: storage `make([]T, cap)` (that is,
`cap` zero-valued slots), `capacity = cap`, and zero `start`/`size` from Go
struct initialization.  The source does not validate `cap`; `make` itself
panics when `cap < 0` (embedded as `none`), and `cap = 0` constructs
successfully. -/
def NewRingBuffer (α : Type) [Inhabited α] (cap : Int) : Option (RingBuffer α) :=
  if cap < 0 then
    none
  else
    some { data := List.replicate cap.toNat default
           capacity := cap.toNat
           start := 0
           size := 0 }

/-- `Add` from the source: writes `item` at index `(start + size) % capacity`;
if the buffer is not full `size` grows, otherwise the oldest element was just
overwritten and `start` advances by one modulo `capacity`. -/
def RingBuffer.Add (b : RingBuffer α) (item : α) : RingBuffer α :=
  let idx := (b.start + b.size) % b.capacity
  if b.size < b.capacity then
    { b with data := b.data.set idx item, size := b.size + 1 }
  else
    { b with data := b.data.set idx item, start := (b.start + 1) % b.capacity }

/-- `Pop` from the source.  Go returns the triple `(zero, result, ok)`: on an
empty buffer `(zero, zero, false)` with no state change; otherwise `result`
is `data[start]`, the slot at `start` is cleared to the zero value, `start`
advances modulo `capacity` and `size` decrements. -/
def RingBuffer.Pop [Inhabited α] (b : RingBuffer α) : (α × α × Bool) × RingBuffer α :=
  if b.size = 0 then
    ((default, default, false), b)
  else
    ((default, b.data.getD b.start default, true),
     { b with data := b.data.set b.start default
              start := (b.start + 1) % b.capacity
              size := b.size - 1 })

/-- `Readd` from the source: on a full buffer returns `false` with no state
change; otherwise decrements `start` by one modulo `capacity` (the Go
expression `(start - 1 + capacity) % capacity`, written with the addition
first so `Nat` subtraction never truncates), writes `item` at the new
`start`, and increments `size`. -/
def RingBuffer.Readd (b : RingBuffer α) (item : α) : Bool × RingBuffer α :=
  if b.size = b.capacity then
    (false, b)
  else
    let s := (b.start + b.capacity - 1) % b.capacity
    (true, { b with data := b.data.set s item, start := s, size := b.size + 1 })

/-- `Len` from the source: returns `size` (and nothing else; in particular
the method body contains no mutex operation). -/
def RingBuffer.Len (b : RingBuffer α) : Nat :=
  b.size

/-- One client-visible operation on the buffer, for stating properties of
arbitrary call sequences. -/
inductive Op (α : Type) where
  | add (x : α)
  | pop
  | readd (x : α)
deriving DecidableEq, Repr

/-- Apply one operation, discarding returned values. -/
def RingBuffer.applyOp [Inhabited α] (b : RingBuffer α) : Op α → RingBuffer α
  | Op.add x => b.Add x
  | Op.pop => b.Pop.2
  | Op.readd x => (b.Readd x).2

/-- Apply a sequence of operations from left to right. -/
def RingBuffer.applyOps [Inhabited α] (b : RingBuffer α) (ops : List (Op α)) : RingBuffer α :=
  ops.foldl RingBuffer.applyOp b

/-- Perform `n` successive `Pop` calls, collecting each call's
`(result, ok)` pair in order. -/
def RingBuffer.popN [Inhabited α] (b : RingBuffer α) : Nat → List (α × Bool) × RingBuffer α
  | 0 => ([], b)
  | n + 1 =>
    let r := b.Pop
    let rest := r.2.popN n
    ((r.1.2.1, r.1.2.2) :: rest.1, rest.2)

/-- Well-formedness of a buffer state: the storage has exactly `capacity`
slots, `start` is a valid index (this forces `capacity > 0`), and `size`
never exceeds `capacity`.  Every state reachable from `NewRingBuffer(c)`
with `c > 0` satisfies it. -/
def RingBuffer.wellFormed (b : RingBuffer α) : Prop :=
  b.data.length = b.capacity ∧ b.start < b.capacity ∧ b.size ≤ b.capacity

instance (b : RingBuffer α) : Decidable b.wellFormed := by
  unfold RingBuffer.wellFormed
  infer_instance

/-- Abstraction function: the live elements in FIFO order, oldest first —
slot `(start + i) % capacity` for `i = 0, …, size - 1`. -/
def RingBuffer.toList [Inhabited α] (b : RingBuffer α) : List α :=
  (List.range b.size).map (fun i => b.data.getD ((b.start + i) % b.capacity) default)

/-- A state reachable from `NewRingBuffer(c)` by some sequence of
`Add`/`Pop`/`Readd` calls. -/
def ReachableFrom [Inhabited α] (c : Int) (b : RingBuffer α) : Prop :=
  ∃ b0 ops, NewRingBuffer α c = some b0 ∧ b0.applyOps ops = b

/-- Mutex events a method performs on the buffer's single `sync.Mutex`. -/
inductive MutexEvent where
  | lock
  | unlock
deriving DecidableEq, Repr

/-- Mutex trace of `Add`: `b.mu.Lock()` at entry, deferred `b.mu.Unlock()`
at the single return. -/
def addMutexTrace (_b : RingBuffer α) : List MutexEvent :=
  [MutexEvent.lock, MutexEvent.unlock]

/-- Mutex trace of `Pop`: `b.mu.Lock()` at entry; the deferred
`b.mu.Unlock()` runs on both the empty early return and the normal
return. -/
def popMutexTrace (b : RingBuffer α) : List MutexEvent :=
  if b.size = 0 then
    [MutexEvent.lock, MutexEvent.unlock]
  else
    [MutexEvent.lock, MutexEvent.unlock]

/-- Mutex trace of `Readd`: `b.mu.Lock()` at entry; the deferred
`b.mu.Unlock()` runs on both the full early return and the normal
return. -/
def readdMutexTrace (b : RingBuffer α) : List MutexEvent :=
  if b.size = b.capacity then
    [MutexEvent.lock, MutexEvent.unlock]
  else
    [MutexEvent.lock, MutexEvent.unlock]

/-- Mutex trace of `Len`: its body is the bare `return b.size`, containing
no `Lock`/`Unlock` call. -/
def lenMutexTrace (_b : RingBuffer α) : List MutexEvent :=
  []

/-! ## Helper lemmas -/

theorem getD_set_self (l : List α) (i : Nat) (x d : α) (h : i < l.length) :
    (l.set i x).getD i d = x := by
  simp [List.getD_eq_getElem?_getD, List.getElem?_set_self, h]

theorem getD_set_ne (l : List α) (i j : Nat) (x d : α) (h : i ≠ j) :
    (l.set i x).getD j d = l.getD j d := by
  simp [List.getD_eq_getElem?_getD, List.getElem?_set_ne, h]

theorem set_getD_self (l : List α) (i : Nat) (d : α) (h : i < l.length) :
    l.set i (l.getD i d) = l := by
  induction l generalizing i with
  | nil => simp at h
  | cons a t ih =>
    cases i with
    | zero => simp [List.getD]
    | succ n =>
      have h2 : n < t.length := by simpa using h
      have ih2 := ih n h2
      simp only [List.getD_eq_getElem?_getD] at ih2
      simp [List.getD_cons_succ, ih2]

theorem mod_add_inj {c s i j : Nat} (hi : i < c) (hj : j < c)
    (h : (s + i) % c = (s + j) % c) : i = j := by
  have h0 : Nat.ModEq c (s + i) (s + j) := h
  have h1 : Nat.ModEq c i j := Nat.ModEq.add_left_cancel (Nat.ModEq.refl s) h0
  have h2 : i % c = j % c := h1
  rwa [Nat.mod_eq_of_lt hi, Nat.mod_eq_of_lt hj] at h2

theorem toList_length [Inhabited α] (b : RingBuffer α) : b.toList.length = b.size := by
  simp [RingBuffer.toList]

theorem toList_of_size_zero [Inhabited α] (b : RingBuffer α) (h : b.size = 0) :
    b.toList = [] := by
  simp [RingBuffer.toList, h]

/-! ## Behaviour of the operations on the list abstraction -/

theorem Add_eq_not_full (b : RingBuffer α) (x : α) (h : b.size < b.capacity) :
    b.Add x = { b with data := b.data.set ((b.start + b.size) % b.capacity) x
                       size := b.size + 1 } := by
  simp [RingBuffer.Add, if_pos h]

theorem Add_eq_full (b : RingBuffer α) (x : α) (h : ¬ b.size < b.capacity) :
    b.Add x = { b with data := b.data.set ((b.start + b.size) % b.capacity) x
                       start := (b.start + 1) % b.capacity } := by
  simp [RingBuffer.Add, if_neg h]

theorem Add_spec_not_full [Inhabited α] (b : RingBuffer α) (x : α)
    (hw : b.wellFormed) (h : b.size < b.capacity) :
    (b.Add x).toList = b.toList ++ [x] ∧ (b.Add x).wellFormed ∧
    (b.Add x).size = b.size + 1 ∧ (b.Add x).capacity = b.capacity ∧
    (b.Add x).start = b.start := by
  obtain ⟨hlen, hstart, hsize⟩ := hw
  have hc : 0 < b.capacity := Nat.lt_of_le_of_lt (Nat.zero_le _) hstart
  rw [Add_eq_not_full b x h]
  refine ⟨?_, ⟨by simpa using hlen, by simpa using hstart, by simpa using h⟩, rfl, rfl, rfl⟩
  simp only [RingBuffer.toList]
  rw [List.range_succ, List.map_append]
  congr 1
  · apply List.map_congr_left
    intro i hi
    have hi2 : i < b.size := List.mem_range.mp hi
    apply getD_set_ne
    intro hEq
    have : b.size = i := mod_add_inj h (Nat.lt_trans hi2 h) hEq
    omega
  · simp only [List.map_cons, List.map_nil]
    rw [getD_set_self]
    rw [hlen]
    exact Nat.mod_lt _ hc

theorem Add_spec_full [Inhabited α] (b : RingBuffer α) (x : α)
    (hw : b.wellFormed) (h : b.size = b.capacity) :
    (b.Add x).toList = b.toList.tail ++ [x] ∧ (b.Add x).wellFormed ∧
    (b.Add x).size = b.size ∧ (b.Add x).capacity = b.capacity := by
  obtain ⟨hlen, hstart, hsize⟩ := hw
  have hc : 0 < b.capacity := Nat.lt_of_le_of_lt (Nat.zero_le _) hstart
  have hnlt : ¬ b.size < b.capacity := by omega
  have hidx : (b.start + b.size) % b.capacity = b.start := by
    rw [h, Nat.add_mod_right, Nat.mod_eq_of_lt hstart]
  rw [Add_eq_full b x hnlt]
  refine ⟨?_, ⟨by simpa using hlen, by simpa using Nat.mod_lt (b.start + 1) hc,
    by simpa using hsize⟩, rfl, rfl⟩
  have hsplit : b.size = (b.capacity - 1) + 1 := by omega
  have htail : b.toList.tail =
      List.map (fun i => b.data.getD ((b.start + (i + 1)) % b.capacity) default)
        (List.range (b.capacity - 1)) := by
    simp only [RingBuffer.toList]
    rw [hsplit, List.range_succ_eq_map, List.map_cons, List.tail_cons, List.map_map]
    simp [Function.comp]
  rw [htail]
  simp only [RingBuffer.toList, hidx]
  rw [hsplit, List.range_succ, List.map_append]
  congr 1
  · apply List.map_congr_left
    intro i hi
    have hi2 : i < b.capacity - 1 := List.mem_range.mp hi
    rw [Nat.mod_add_mod]
    have harg : b.start + 1 + i = b.start + (i + 1) := by omega
    rw [harg]
    apply getD_set_ne
    intro hEq
    have h0 : (b.start + 0) % b.capacity = b.start := by
      rw [Nat.add_zero, Nat.mod_eq_of_lt hstart]
    nth_rewrite 1 [← h0] at hEq
    have : 0 = i + 1 := mod_add_inj hc (by omega) hEq
    omega
  · simp only [List.map_cons, List.map_nil]
    rw [Nat.mod_add_mod]
    have harg : b.start + 1 + (b.capacity - 1) = b.start + b.capacity := by omega
    rw [harg, Nat.add_mod_right, Nat.mod_eq_of_lt hstart, getD_set_self]
    rw [hlen]
    exact hstart

theorem Pop_eq_empty [Inhabited α] (b : RingBuffer α) (h : b.size = 0) :
    b.Pop = ((default, default, false), b) := by
  simp [RingBuffer.Pop, if_pos h]

theorem Pop_eq_nonempty [Inhabited α] (b : RingBuffer α) (h : ¬ b.size = 0) :
    b.Pop = ((default, b.data.getD b.start default, true),
      { b with data := b.data.set b.start default
               start := (b.start + 1) % b.capacity
               size := b.size - 1 }) := by
  simp [RingBuffer.Pop, if_neg h]

theorem Pop_spec [Inhabited α] (b : RingBuffer α)
    (hw : b.wellFormed) (h : 0 < b.size) :
    b.Pop.1.2.2 = true ∧ b.Pop.1.2.1 = b.data.getD b.start default ∧
    b.toList = b.Pop.1.2.1 :: b.Pop.2.toList ∧ b.Pop.2.wellFormed ∧
    b.Pop.2.size = b.size - 1 ∧ b.Pop.2.capacity = b.capacity := by
  obtain ⟨hlen, hstart, hsize⟩ := hw
  have hc : 0 < b.capacity := Nat.lt_of_le_of_lt (Nat.zero_le _) hstart
  have hne : ¬ b.size = 0 := by omega
  rw [Pop_eq_nonempty b hne]
  refine ⟨rfl, rfl, ?_, ⟨by simpa using hlen, by simpa using Nat.mod_lt (b.start + 1) hc,
    by simp; omega⟩, rfl, rfl⟩
  have hsplit : b.size = (b.size - 1) + 1 := by omega
  simp only [RingBuffer.toList]
  rw [hsplit, List.range_succ_eq_map, List.map_cons, List.map_map]
  congr 1
  · rw [Nat.add_zero, Nat.mod_eq_of_lt hstart]
  · simp only [Nat.add_sub_cancel]
    apply List.map_congr_left
    intro i hi
    have hi2 : i < b.size - 1 := List.mem_range.mp hi
    simp only [Function.comp]
    rw [Nat.mod_add_mod]
    have harg : b.start + 1 + i = b.start + (i + 1) := by omega
    rw [harg]
    symm
    apply getD_set_ne
    intro hEq
    have h0 : (b.start + 0) % b.capacity = b.start := by
      rw [Nat.add_zero, Nat.mod_eq_of_lt hstart]
    nth_rewrite 1 [← h0] at hEq
    have : 0 = i + 1 := mod_add_inj hc (by omega) hEq
    omega

theorem Readd_eq_full (b : RingBuffer α) (x : α) (h : b.size = b.capacity) :
    b.Readd x = (false, b) := by
  simp [RingBuffer.Readd, if_pos h]

theorem Readd_eq_not_full (b : RingBuffer α) (x : α) (h : ¬ b.size = b.capacity) :
    b.Readd x = (true,
      { b with data := b.data.set ((b.start + b.capacity - 1) % b.capacity) x
               start := (b.start + b.capacity - 1) % b.capacity
               size := b.size + 1 }) := by
  simp [RingBuffer.Readd, if_neg h]

theorem Readd_spec [Inhabited α] (b : RingBuffer α) (x : α)
    (hw : b.wellFormed) (h : b.size < b.capacity) :
    (b.Readd x).1 = true ∧ (b.Readd x).2.toList = x :: b.toList ∧
    (b.Readd x).2.wellFormed ∧ (b.Readd x).2.size = b.size + 1 ∧
    (b.Readd x).2.capacity = b.capacity ∧
    (b.Readd x).2.start = (b.start + b.capacity - 1) % b.capacity := by
  obtain ⟨hlen, hstart, hsize⟩ := hw
  have hc : 0 < b.capacity := Nat.lt_of_le_of_lt (Nat.zero_le _) hstart
  have hne : ¬ b.size = b.capacity := by omega
  have hs : (b.start + b.capacity - 1) % b.capacity < b.capacity := Nat.mod_lt _ hc
  rw [Readd_eq_not_full b x hne]
  refine ⟨rfl, ?_, ⟨by simpa using hlen, by simpa using hs, by simp; omega⟩, rfl, rfl, rfl⟩
  simp only [RingBuffer.toList]
  rw [List.range_succ_eq_map, List.map_cons, List.map_map]
  congr 1
  · rw [Nat.add_zero, Nat.mod_eq_of_lt hs]
    rw [getD_set_self]
    rw [hlen]
    exact hs
  · apply List.map_congr_left
    intro i hi
    have hi2 : i < b.size := List.mem_range.mp hi
    simp only [Function.comp]
    rw [Nat.mod_add_mod]
    have harg : b.start + b.capacity - 1 + (i + 1) = b.start + i + b.capacity := by omega
    rw [harg, Nat.add_mod_right]
    apply getD_set_ne
    intro hEq
    have hform : (b.start + b.capacity - 1) % b.capacity =
        (b.start + (b.capacity - 1)) % b.capacity := by
      congr 1
      omega
    rw [hform] at hEq
    have : b.capacity - 1 = i := mod_add_inj (by omega) (by omega) hEq
    omega

/-! ## Preservation of well-formedness and reachability -/

theorem wf_applyOp [Inhabited α] (b : RingBuffer α) (op : Op α) (hw : b.wellFormed) :
    (b.applyOp op).wellFormed ∧ (b.applyOp op).capacity = b.capacity := by
  obtain ⟨hlen, hstart, hsize⟩ := hw
  have hc : 0 < b.capacity := Nat.lt_of_le_of_lt (Nat.zero_le _) hstart
  cases op with
  | add x =>
    by_cases h : b.size < b.capacity
    · rw [RingBuffer.applyOp, Add_eq_not_full b x h]
      exact ⟨⟨by simpa using hlen, by simpa using hstart, by simpa using h⟩, rfl⟩
    · rw [RingBuffer.applyOp, Add_eq_full b x h]
      exact ⟨⟨by simpa using hlen, by simpa using Nat.mod_lt (b.start + 1) hc,
        by simpa using hsize⟩, rfl⟩
  | pop =>
    by_cases h : b.size = 0
    · rw [RingBuffer.applyOp, Pop_eq_empty b h]
      exact ⟨⟨hlen, hstart, hsize⟩, rfl⟩
    · rw [RingBuffer.applyOp, Pop_eq_nonempty b h]
      exact ⟨⟨by simpa using hlen, by simpa using Nat.mod_lt (b.start + 1) hc,
        by simp; omega⟩, rfl⟩
  | readd x =>
    by_cases h : b.size = b.capacity
    · rw [RingBuffer.applyOp, Readd_eq_full b x h]
      exact ⟨⟨hlen, hstart, hsize⟩, rfl⟩
    · rw [RingBuffer.applyOp, Readd_eq_not_full b x h]
      exact ⟨⟨by simpa using hlen,
        by simpa using Nat.mod_lt (b.start + b.capacity - 1) hc, by simp; omega⟩, rfl⟩

theorem wf_applyOps [Inhabited α] (b : RingBuffer α) (ops : List (Op α)) (hw : b.wellFormed) :
    (b.applyOps ops).wellFormed ∧ (b.applyOps ops).capacity = b.capacity := by
  induction ops generalizing b with
  | nil => exact ⟨hw, rfl⟩
  | cons op ops ih =>
    obtain ⟨hw1, hcap1⟩ := wf_applyOp b op hw
    obtain ⟨hw2, hcap2⟩ := ih (b.applyOp op) hw1
    refine ⟨hw2, ?_⟩
    rw [RingBuffer.applyOps, List.foldl_cons]
    rw [RingBuffer.applyOps] at hcap2
    omega

theorem NewRingBuffer_pos [Inhabited α] {c : Int} {b0 : RingBuffer α} (hc : 0 < c)
    (h : NewRingBuffer α c = some b0) :
    b0 = { data := List.replicate c.toNat default, capacity := c.toNat,
           start := 0, size := 0 } ∧ b0.wellFormed := by
  have hneg : ¬ c < 0 := by omega
  rw [NewRingBuffer, if_neg hneg, Option.some_inj] at h
  have hpos : 0 < c.toNat := by omega
  refine ⟨h.symm, ?_⟩
  rw [← h]
  exact ⟨by simp, by simpa using hpos, by simp⟩

theorem reachable_wellFormed [Inhabited α] {c : Int} {b : RingBuffer α} (hc : 0 < c)
    (hr : ReachableFrom c b) : b.wellFormed ∧ b.capacity = c.toNat := by
  obtain ⟨b0, ops, h0, happ⟩ := hr
  obtain ⟨hb0, hwf0⟩ := NewRingBuffer_pos hc h0
  obtain ⟨hwf, hcap⟩ := wf_applyOps b0 ops hwf0
  rw [happ] at hwf hcap
  refine ⟨hwf, ?_⟩
  rw [hcap, hb0]

/-! ## The Pop-then-Readd round trip restores the exact state -/

theorem Readd_Pop_restore [Inhabited α] (b : RingBuffer α)
    (hw : b.wellFormed) (h : 0 < b.size) :
    b.Pop.2.Readd b.Pop.1.2.1 = (true, b) := by
  obtain ⟨hlen, hstart, hsize⟩ := hw
  have hc : 0 < b.capacity := Nat.lt_of_le_of_lt (Nat.zero_le _) hstart
  have hne : ¬ b.size = 0 := by omega
  rw [Pop_eq_nonempty b hne]
  have hne2 : ¬ b.size - 1 = b.capacity := by omega
  rw [Readd_eq_not_full _ _ hne2]
  have hback : ((b.start + 1) % b.capacity + b.capacity - 1) % b.capacity = b.start := by
    have h1 : (b.start + 1) % b.capacity + b.capacity - 1 =
        (b.start + 1) % b.capacity + (b.capacity - 1) := by omega
    rw [h1, Nat.mod_add_mod]
    have h2 : b.start + 1 + (b.capacity - 1) = b.start + b.capacity := by omega
    rw [h2, Nat.add_mod_right, Nat.mod_eq_of_lt hstart]
  simp only [hback]
  have hdata : (b.data.set b.start default).set b.start (b.data.getD b.start default)
      = b.data := by
    rw [List.set_set]
    exact set_getD_self b.data b.start default (by omega)
  have hsz : b.size - 1 + 1 = b.size := by omega
  rw [Prod.mk.injEq]
  refine ⟨rfl, ?_⟩
  obtain ⟨bd, bc, bs, bz⟩ := b
  simp only at hdata hsz hback ⊢
  rw [hdata, hsz]

/-! ## Sequences of Adds and of Pops -/

/-- `Add(v₁); …; Add(vₙ)` as a fold over the list of values. -/
def RingBuffer.addAll (b : RingBuffer α) (vs : List α) : RingBuffer α :=
  vs.foldl RingBuffer.Add b

theorem addAll_spec [Inhabited α] (b : RingBuffer α) (vs : List α) (hw : b.wellFormed)
    (h : b.size + vs.length ≤ b.capacity) :
    (b.addAll vs).toList = b.toList ++ vs ∧ (b.addAll vs).wellFormed ∧
    (b.addAll vs).size = b.size + vs.length ∧ (b.addAll vs).capacity = b.capacity := by
  induction vs using List.reverseRecOn with
  | nil => simpa [RingBuffer.addAll] using hw
  | append_singleton vs x ih =>
    have h2 : b.size + vs.length ≤ b.capacity := by
      rw [List.length_append, List.length_singleton] at h
      omega
    obtain ⟨ihList, ihWf, ihSize, ihCap⟩ := ih h2
    have hfold : b.addAll (vs ++ [x]) = (b.addAll vs).Add x := by
      rw [RingBuffer.addAll, RingBuffer.addAll, List.foldl_append, List.foldl_cons,
        List.foldl_nil]
    have hlt : (b.addAll vs).size < (b.addAll vs).capacity := by
      rw [ihSize, ihCap]
      rw [List.length_append, List.length_singleton] at h
      omega
    obtain ⟨aList, aWf, aSize, aCap, _⟩ := Add_spec_not_full (b.addAll vs) x ihWf hlt
    rw [hfold]
    refine ⟨?_, aWf, ?_, ?_⟩
    · rw [aList, ihList, List.append_assoc]
    · rw [aSize, ihSize, List.length_append, List.length_singleton]
      omega
    · rw [aCap, ihCap]

theorem addAll_overflow_spec [Inhabited α] (b : RingBuffer α) (vs : List α)
    (hw : b.wellFormed) (h0 : b.size = 0) :
    (b.addAll vs).toList = vs.drop (vs.length - b.capacity) ∧
    (b.addAll vs).wellFormed ∧
    (b.addAll vs).size = min vs.length b.capacity ∧
    (b.addAll vs).capacity = b.capacity := by
  have hc : 0 < b.capacity := Nat.lt_of_le_of_lt (Nat.zero_le _) hw.2.1
  induction vs using List.reverseRecOn with
  | nil =>
    refine ⟨?_, hw, ?_, rfl⟩
    · rw [RingBuffer.addAll, List.foldl_nil, toList_of_size_zero b h0, List.drop_nil]
    · rw [RingBuffer.addAll, List.foldl_nil, h0]
      simp
  | append_singleton vs x ih =>
    obtain ⟨ihList, ihWf, ihSize, ihCap⟩ := ih
    have hfold : b.addAll (vs ++ [x]) = (b.addAll vs).Add x := by
      rw [RingBuffer.addAll, RingBuffer.addAll, List.foldl_append, List.foldl_cons,
        List.foldl_nil]
    rw [hfold]
    by_cases hfull : vs.length < b.capacity
    · have hlt : (b.addAll vs).size < (b.addAll vs).capacity := by
        rw [ihSize, ihCap]
        omega
      obtain ⟨aList, aWf, aSize, aCap, _⟩ := Add_spec_not_full (b.addAll vs) x ihWf hlt
      refine ⟨?_, aWf, ?_, ?_⟩
      · rw [aList, ihList]
        have hd1 : vs.length - b.capacity = 0 := by omega
        have hd2 : (vs ++ [x]).length - b.capacity = 0 := by
          rw [List.length_append, List.length_singleton]
          omega
        rw [hd1, hd2, List.drop_zero, List.drop_zero]
      · rw [aSize, ihSize, List.length_append, List.length_singleton]
        omega
      · rw [aCap, ihCap]
    · have hfull2 : (b.addAll vs).size = (b.addAll vs).capacity := by
        rw [ihSize, ihCap]
        omega
      obtain ⟨aList, aWf, aSize, aCap⟩ := Add_spec_full (b.addAll vs) x ihWf hfull2
      refine ⟨?_, aWf, ?_, ?_⟩
      · rw [aList, ihList, List.tail_drop]
        have hd3 : (vs ++ [x]).length - b.capacity =
            (vs.length - b.capacity) + 1 := by
          rw [List.length_append, List.length_singleton]
          omega
        rw [hd3, List.drop_append_of_le_length (by omega)]
      · rw [aSize, ihSize, List.length_append, List.length_singleton]
        omega
      · rw [aCap, ihCap]

theorem popN_spec [Inhabited α] (b : RingBuffer α) (n : Nat) (hw : b.wellFormed)
    (h : n ≤ b.size) :
    (b.popN n).1 = (b.toList.take n).map (fun v => (v, true)) ∧
    (b.popN n).2.toList = b.toList.drop n ∧
    (b.popN n).2.wellFormed ∧ (b.popN n).2.size = b.size - n := by
  induction n generalizing b with
  | zero => exact ⟨by simp [RingBuffer.popN], by simp [RingBuffer.popN],
      by simpa [RingBuffer.popN] using hw, by simp [RingBuffer.popN]⟩
  | succ n ih =>
    have hpos : 0 < b.size := by omega
    obtain ⟨hok, hres, hcons, hwf1, hsz1, _⟩ := Pop_spec b hw hpos
    have hn : n ≤ b.Pop.2.size := by omega
    obtain ⟨ih1, ih2, ih3, ih4⟩ := ih b.Pop.2 hwf1 hn
    refine ⟨?_, ?_, ?_, ?_⟩
    · rw [RingBuffer.popN]
      simp only []
      rw [hok, ih1, hcons, List.take_succ_cons, List.map_cons]
    · rw [RingBuffer.popN]
      simp only []
      rw [ih2, hcons, List.drop_succ_cons]
    · rw [RingBuffer.popN]
      simpa using ih3
    · rw [RingBuffer.popN]
      simp only []
      omega

/-! ## The claims -/

/-- C1: For every buffer constructed with `NewRingBuffer(c)` with `c > 0` and
every sequence of `Add`, `Pop` and `Readd` operations applied to it, `Len()`
is always at least `0` and never exceeds `c`. -/
theorem C1_len_bounded (α : Type) [Inhabited α] (c : Int) (hc : 0 < c)
    (b0 : RingBuffer α) (h0 : NewRingBuffer α c = some b0) (ops : List (Op α)) :
    0 ≤ ((b0.applyOps ops).Len : Int) ∧ ((b0.applyOps ops).Len : Int) ≤ c := by
  obtain ⟨hb0, hwf0⟩ := NewRingBuffer_pos hc h0
  obtain ⟨hwf, hcap⟩ := wf_applyOps b0 ops hwf0
  have hsize := hwf.2.2
  have hcapv : b0.capacity = c.toNat := by rw [hb0]
  rw [hcap, hcapv] at hsize
  refine ⟨Int.ofNat_nonneg _, ?_⟩
  rw [RingBuffer.Len]
  omega

/-- C1 witness: a concrete run on capacity 2 with adds, an overflowing add,
a pop and a readd. -/
theorem C1_len_bounded_witness :
    0 ≤ ((RingBuffer.applyOps { data := [(0 : Int), 0], capacity := 2, start := 0, size := 0 }
      [Op.add (5 : Int), Op.add 6, Op.add 7, Op.pop, Op.readd 9]).Len : Int) ∧
    ((RingBuffer.applyOps { data := [(0 : Int), 0], capacity := 2, start := 0, size := 0 }
      [Op.add (5 : Int), Op.add 6, Op.add 7, Op.pop, Op.readd 9]).Len : Int) ≤ 2 :=
  C1_len_bounded Int 2 (by decide) _ (by rfl) _

/-- C2: starting from an empty buffer of capacity `c > 0`, after
`Add(v₁); …; Add(vₙ)` with `n ≤ c`, `n` `Pop` calls return `v₁ … vₙ` in
insertion order, each with success flag `true`. -/
theorem C2_fifo_order (α : Type) [Inhabited α] (c : Int) (hc : 0 < c)
    (b0 : RingBuffer α) (h0 : NewRingBuffer α c = some b0) (vs : List α)
    (hn : (vs.length : Int) ≤ c) :
    ((b0.addAll vs).popN vs.length).1 = vs.map (fun v => (v, true)) := by
  obtain ⟨hb0, hwf0⟩ := NewRingBuffer_pos hc h0
  have hsize0 : b0.size = 0 := by rw [hb0]
  have hcap0 : b0.capacity = c.toNat := by rw [hb0]
  have hbound : b0.size + vs.length ≤ b0.capacity := by
    rw [hsize0, hcap0]
    omega
  obtain ⟨hList, hwf1, hsz1, _⟩ := addAll_spec b0 vs hwf0 hbound
  rw [toList_of_size_zero b0 hsize0, List.nil_append] at hList
  obtain ⟨hpop, _, _, _⟩ := popN_spec (b0.addAll vs) vs.length hwf1 (by omega)
  rw [hpop, hList, List.take_length]

/-- C2 witness: capacity 3, two adds, two pops. -/
theorem C2_fifo_order_witness :
    ((RingBuffer.addAll { data := [(0 : Int), 0, 0], capacity := 3, start := 0, size := 0 }
      [(7 : Int), 8]).popN 2).1 = [((7 : Int), true), (8, true)] :=
  C2_fifo_order Int 3 (by decide) _ (by rfl) [7, 8] (by decide)

/-- C3: adding `c + k` elements (`k ≥ 1`) to the empty buffer of capacity
`c > 0` and then draining it (`c` pops, after which `size = 0`) yields
exactly the last `c` elements added in insertion order, each with success
flag `true`; the first `k` elements are never returned. -/
theorem C3_overwrite_drains_last (α : Type) [Inhabited α] (c k : Int) (hc : 0 < c)
    (hk : 1 ≤ k) (b0 : RingBuffer α) (h0 : NewRingBuffer α c = some b0) (vs : List α)
    (hlen : (vs.length : Int) = c + k) :
    ((b0.addAll vs).popN c.toNat).1 = (vs.drop k.toNat).map (fun v => (v, true)) ∧
    ((b0.addAll vs).popN c.toNat).2.size = 0 := by
  obtain ⟨hb0, hwf0⟩ := NewRingBuffer_pos hc h0
  have hsize0 : b0.size = 0 := by rw [hb0]
  have hcap0 : b0.capacity = c.toNat := by rw [hb0]
  obtain ⟨hList, hwf1, hsz1, _⟩ := addAll_overflow_spec b0 vs hwf0 hsize0
  have hlen2 : vs.length = c.toNat + k.toNat := by omega
  have hsz2 : (b0.addAll vs).size = c.toNat := by
    rw [hsz1, hcap0]
    omega
  have hdrop : vs.length - b0.capacity = k.toNat := by omega
  rw [hdrop] at hList
  obtain ⟨hpop, _, _, hszf⟩ := popN_spec (b0.addAll vs) c.toNat hwf1 (by omega)
  constructor
  · rw [hpop, hList, List.take_of_length_le]
    rw [List.length_drop]
    omega
  · omega

/-- C3 witness: capacity 2, three adds, drained by two pops; the first
element 1 is lost, 2 and 3 come back in order. -/
theorem C3_overwrite_drains_last_witness :
    ((RingBuffer.addAll { data := [(0 : Int), 0], capacity := 2, start := 0, size := 0 }
      [(1 : Int), 2, 3]).popN 2).1 = [((2 : Int), true), (3, true)] ∧
    ((RingBuffer.addAll { data := [(0 : Int), 0], capacity := 2, start := 0, size := 0 }
      [(1 : Int), 2, 3]).popN 2).2.size = 0 :=
  C3_overwrite_drains_last Int 2 1 (by decide) (by decide) _ (by rfl) [1, 2, 3] (by decide)

/-- C4: on any reachable non-full buffer with `size > 0`, `Pop` succeeds
with some value `v`, an immediate `Readd(v)` returns `true` and restores
the state (hence `Len()`), and the next `Pop` returns `v` again with
success `true`. -/
theorem C4_pop_readd_roundtrip (α : Type) [Inhabited α] (c : Int) (hc : 0 < c)
    (b : RingBuffer α) (hr : ReachableFrom c b) (hpos : 0 < b.size)
    (_hnf : b.size < b.capacity) :
    b.Pop.1.2.2 = true ∧
    b.Pop.2.Readd b.Pop.1.2.1 = (true, b) ∧
    (b.Pop.2.Readd b.Pop.1.2.1).2.Len = b.Len ∧
    (b.Pop.2.Readd b.Pop.1.2.1).2.Pop.1.2.1 = b.Pop.1.2.1 ∧
    (b.Pop.2.Readd b.Pop.1.2.1).2.Pop.1.2.2 = true := by
  obtain ⟨hwf, _⟩ := reachable_wellFormed hc hr
  have hres := Readd_Pop_restore b hwf hpos
  obtain ⟨hok, _, _, _, _, _⟩ := Pop_spec b hwf hpos
  refine ⟨hok, hres, ?_, ?_, ?_⟩
  · rw [hres]
  · rw [hres]
  · rw [hres]
    exact hok

/-- C4 witness: capacity 2, one element, pop then readd restores the exact
state. -/
theorem C4_pop_readd_roundtrip_witness :
    (RingBuffer.Pop { data := [(5 : Int), 0], capacity := 2, start := 0, size := 1 }).2.Readd
      (RingBuffer.Pop { data := [(5 : Int), 0], capacity := 2, start := 0, size := 1 }).1.2.1
      = (true, { data := [(5 : Int), 0], capacity := 2, start := 0, size := 1 }) :=
  (C4_pop_readd_roundtrip Int 2 (by decide) _ ⟨_, [Op.add 5], by rfl, by rfl⟩
    (by decide) (by decide)).2.1

/-- C5: on a full buffer (`size = capacity`), `Readd` returns `false` and
leaves the entire state — and hence `Len()` — unchanged. -/
theorem C5_readd_full_rejected (α : Type) (b : RingBuffer α) (x : α)
    (h : b.size = b.capacity) :
    b.Readd x = (false, b) ∧ (b.Readd x).2.Len = b.Len := by
  refine ⟨Readd_eq_full b x h, ?_⟩
  rw [Readd_eq_full b x h]

/-- C5 witness: a full one-slot buffer rejects `Readd 9` unchanged. -/
theorem C5_readd_full_rejected_witness :
    RingBuffer.Readd { data := [(7 : Int)], capacity := 1, start := 0, size := 1 } 9
      = (false, { data := [(7 : Int)], capacity := 1, start := 0, size := 1 }) ∧
    (RingBuffer.Readd { data := [(7 : Int)], capacity := 1, start := 0, size := 1 } 9).2.Len
      = RingBuffer.Len { data := [(7 : Int)], capacity := 1, start := 0, size := 1 } :=
  C5_readd_full_rejected Int _ 9 (by decide)

/-- C6: on an empty buffer (`size = 0`), `Pop` returns the zero value of the
element type with success flag `false`, and the state is unchanged. -/
theorem C6_pop_empty (α : Type) [Inhabited α] (b : RingBuffer α) (h : b.size = 0) :
    b.Pop = ((default, default, false), b) :=
  Pop_eq_empty b h

/-- C6 witness: popping a fresh capacity-2 buffer with nonzero `start`. -/
theorem C6_pop_empty_witness :
    RingBuffer.Pop { data := [(0 : Int), 0], capacity := 2, start := 1, size := 0 }
      = ((0, 0, false), { data := [(0 : Int), 0], capacity := 2, start := 1, size := 0 }) :=
  C6_pop_empty Int _ (by decide)

/-- C7: a successful `Pop` on a well-formed non-empty buffer clears the slot
at the old `start` to the zero value, leaves every other slot unchanged,
advances `start` by one modulo `capacity`, and decrements `size` by one. -/
theorem C7_pop_frame (α : Type) [Inhabited α] (b : RingBuffer α)
    (hw : b.wellFormed) (h : 0 < b.size) :
    b.Pop.1.2.2 = true ∧
    b.Pop.2.data.getD b.start default = default ∧
    (∀ j, j ≠ b.start → b.Pop.2.data.getD j default = b.data.getD j default) ∧
    b.Pop.2.start = (b.start + 1) % b.capacity ∧
    b.Pop.2.size = b.size - 1 := by
  obtain ⟨hlen, hstart, hsize⟩ := hw
  have hne : ¬ b.size = 0 := by omega
  rw [Pop_eq_nonempty b hne]
  refine ⟨rfl, ?_, ?_, rfl, rfl⟩
  · exact getD_set_self b.data b.start default default (by omega)
  · intro j hj
    exact getD_set_ne b.data b.start j default default (Ne.symm hj)

/-- C7 witness: popping `⟨[4, 5], 2, 0, 2⟩` clears slot 0, keeps slot 1,
moves `start` to 1 and `size` to 1. -/
theorem C7_pop_frame_witness :
    (RingBuffer.Pop { data := [(4 : Int), 5], capacity := 2, start := 0, size := 2 }).1.2.2 = true ∧
    (RingBuffer.Pop { data := [(4 : Int), 5], capacity := 2, start := 0, size := 2 }).2.data.getD 0 default = 0 ∧
    (RingBuffer.Pop { data := [(4 : Int), 5], capacity := 2, start := 0, size := 2 }).2.data.getD 1 default = 5 ∧
    (RingBuffer.Pop { data := [(4 : Int), 5], capacity := 2, start := 0, size := 2 }).2.start = 1 ∧
    (RingBuffer.Pop { data := [(4 : Int), 5], capacity := 2, start := 0, size := 2 }).2.size = 1 := by
  have h := C7_pop_frame Int { data := [(4 : Int), 5], capacity := 2, start := 0, size := 2 }
    (by decide) (by decide)
  exact ⟨h.1, h.2.1, h.2.2.1 1 (by decide), h.2.2.2.1, h.2.2.2.2⟩

/-- C8 (refuted by the code): the claim says every operation, `Len`
included, acquires and releases the buffer mutex.  `Add`, `Pop` and `Readd`
do lock and unlock on every return path, but the body of `Len` contains no
mutex operation at all, so its trace is empty and differs from the
lock-unlock trace of the mutating operations. -/
theorem C8_len_unsynchronized (α : Type) (b : RingBuffer α) :
    addMutexTrace b = [MutexEvent.lock, MutexEvent.unlock] ∧
    popMutexTrace b = [MutexEvent.lock, MutexEvent.unlock] ∧
    readdMutexTrace b = [MutexEvent.lock, MutexEvent.unlock] ∧
    lenMutexTrace b = [] ∧
    lenMutexTrace b ≠ addMutexTrace b := by
  refine ⟨rfl, ?_, ?_, rfl, ?_⟩
  · rw [popMutexTrace]
    exact ite_self _
  · rw [readdMutexTrace]
    exact ite_self _
  · rw [lenMutexTrace, addMutexTrace]
    simp

/-- C9 counterexample: `NewRingBuffer(0)` does not fail at construction — it
returns a buffer with zero backing slots — although the claim requires a
construction-time failure/panic for every `capacity ≤ 0`. -/
theorem C9_counterexample :
    NewRingBuffer Int 0 = some { data := [], capacity := 0, start := 0, size := 0 } := by
  rfl

/-- C9 (amended): `NewRingBuffer(c)` returns a buffer with `size = 0`,
`start = 0` and `c` backing slots for every `c ≥ 0` — including `c = 0`,
where construction succeeds and any failure is deferred to first use — and
fails at construction (the `make` call panics) only when `c < 0`. -/
theorem C9_construction (α : Type) [Inhabited α] (c : Int) :
    (c < 0 → NewRingBuffer α c = none) ∧
    (0 ≤ c → NewRingBuffer α c =
      some { data := List.replicate c.toNat default, capacity := c.toNat, start := 0, size := 0 }) := by
  constructor
  · intro h
    rw [NewRingBuffer, if_pos h]
  · intro h
    rw [NewRingBuffer, if_neg (by omega)]

/-- C9 witness: negative capacity fails, capacity 2 yields two zero slots
with `start = 0` and `size = 0`. -/
theorem C9_construction_witness :
    NewRingBuffer Int (-1) = none ∧
    NewRingBuffer Int 2 = some { data := [0, 0], capacity := 2, start := 0, size := 0 } :=
  ⟨(C9_construction Int (-1)).1 (by decide), (C9_construction Int 2).2 (by decide)⟩

/-- C10: `Readd` has no precondition that a `Pop` ever happened: on any
well-formed non-full buffer and any value `v` (popped before or not),
`Readd(v)` returns `true`, decrements `start` by one modulo `capacity`,
increments `size` (hence `Len`) by one, and the next `Pop` returns `v` with
success `true`. -/
theorem C10_readd_fresh_value (α : Type) [Inhabited α] (b : RingBuffer α) (v : α)
    (hw : b.wellFormed) (h : b.size < b.capacity) :
    (b.Readd v).1 = true ∧
    (b.Readd v).2.start = (b.start + b.capacity - 1) % b.capacity ∧
    (b.Readd v).2.size = b.size + 1 ∧
    (b.Readd v).2.Len = b.Len + 1 ∧
    (b.Readd v).2.Pop.1.2.1 = v ∧ (b.Readd v).2.Pop.1.2.2 = true := by
  obtain ⟨hok, hlist, hwf2, hsz2, hcap2, hstart2⟩ := Readd_spec b v hw h
  have hpos : 0 < (b.Readd v).2.size := by omega
  obtain ⟨hok2, hres2, hcons2, _, _, _⟩ := Pop_spec (b.Readd v).2 hwf2 hpos
  have h3 := hcons2
  rw [hlist] at h3
  refine ⟨hok, hstart2, hsz2, ?_, ?_, hok2⟩
  · rw [RingBuffer.Len, RingBuffer.Len, hsz2]
  · injection h3 with h4 h5
    exact h4.symm

/-- C10 witness: readding the never-popped value 42 into `⟨[0, 9, 0], 3, 1, 1⟩`. -/
theorem C10_readd_fresh_value_witness :
    (RingBuffer.Readd { data := [(0 : Int), 9, 0], capacity := 3, start := 1, size := 1 } 42).1 = true ∧
    (RingBuffer.Readd { data := [(0 : Int), 9, 0], capacity := 3, start := 1, size := 1 } 42).2.start = 0 ∧
    (RingBuffer.Readd { data := [(0 : Int), 9, 0], capacity := 3, start := 1, size := 1 } 42).2.size = 2 ∧
    (RingBuffer.Readd { data := [(0 : Int), 9, 0], capacity := 3, start := 1, size := 1 } 42).2.Len = 2 ∧
    (RingBuffer.Readd { data := [(0 : Int), 9, 0], capacity := 3, start := 1, size := 1 } 42).2.Pop.1.2.1 = 42 ∧
    (RingBuffer.Readd { data := [(0 : Int), 9, 0], capacity := 3, start := 1, size := 1 } 42).2.Pop.1.2.2 = true :=
  C10_readd_fresh_value Int { data := [(0 : Int), 9, 0], capacity := 3, start := 1, size := 1 } 42
    (by decide) (by decide)
